import Mathlib

/-!
# Verification of `scripts/github-api.js` (class `GitHubManager`)

The file embeds the browser-side GitHub persistence helper as pure Lean
functions and proves properties of it.

* A JavaScript string is its sequence of UTF-16 code units (`JSString`).
* `localStorage` is a map from the five keys the script uses to strings;
  `setItem` always succeeds (no storage quota).
* `fetch` is an oracle `Request → FetchResult` supplied by the environment; every
  method returns, next to its result, the list of requests it issued.
* An `async` method is the promise it settles to: `Except.ok` for a resolved
  promise, `Except.error` for a rejected one.  `console.log` and
  `console.error` have no effect on the result and are left out, as are the two
  functions that only write to the page (`showConfigStatus`, `updateGitHubUI`).
* The platform functions the script calls (`JSON.stringify`, `JSON.parse`, `btoa`,
  `atob`, `encodeURIComponent`, `unescape`) are modelled after their
  specifications (ECMA-262, WHATWG HTML).  JSON numbers are modelled as
  integers printed in decimal; a number literal with a fraction or an exponent
  is outside the modelled fragment and the parser reports failure on it.
-/

namespace GitHubApi

/-! ## JavaScript strings -/

/-- A JavaScript string: the list of its UTF-16 code units (naturals below 65536). -/
abbrev JSString := List Nat

/-- The JavaScript string written by a source literal.  Characters outside the
basic plane become a surrogate pair. -/
def lit (s : String) : JSString :=
  s.toList.flatMap fun ch =>
    if ch.toNat < 65536 then [ch.toNat]
    else [55296 + (ch.toNat - 65536) / 1024, 56320 + (ch.toNat - 65536) % 1024]

/-- Leading (high) surrogate code unit, U+D800..U+DBFF. -/
def isHighSurrogate (c : Nat) : Bool := decide (55296 ≤ c) && decide (c ≤ 56319)

/-- Trailing (low) surrogate code unit, U+DC00..U+DFFF. -/
def isLowSurrogate (c : Nat) : Bool := decide (56320 ≤ c) && decide (c ≤ 57343)

/-- Decimal digits of `n` pushed in front of `acc`; `fuel` bounds the number of digits. -/
def natDigits : Nat → Nat → List Nat → List Nat
  | 0, _, acc => acc
  | fuel + 1, n, acc =>
    if n < 10 then (48 + n) :: acc
    else natDigits fuel (n / 10) ((48 + n % 10) :: acc)

/-- Decimal text of a natural number, as `Number.prototype.toString` prints an
integer (`String(404)` is `"404"`). -/
def natToString (n : Nat) : JSString := natDigits (n + 1) n []

/-- Decimal text of an integer. -/
def intToString : Int → JSString
  | Int.ofNat n => natToString n
  | Int.negSucc n => 45 :: natToString (n + 1)

/-- Lower-case hexadecimal digit character of `d < 16`. -/
def hexDigitLower (d : Nat) : Nat := if d < 10 then 48 + d else 87 + d

/-- Upper-case hexadecimal digit character of `d < 16`. -/
def hexDigitUpper (d : Nat) : Nat := if d < 10 then 48 + d else 55 + d

/-- Value of a hexadecimal digit character, in either case. -/
def hexValue (c : Nat) : Option Nat :=
  if 48 ≤ c ∧ c ≤ 57 then some (c - 48)
  else if 97 ≤ c ∧ c ≤ 102 then some (c - 87)
  else if 65 ≤ c ∧ c ≤ 70 then some (c - 55)
  else none

/-! ## JSON values -/

mutual
/-- A JSON value.  `arr` is a sequence, `obj` a record given by its members in
enumeration order. -/
inductive Json where
  | null
  | bool (b : Bool)
  | num (n : Int)
  | str (s : JSString)
  | arr (items : JsonList)
  | obj (members : JsonMembers)
/-- The elements of a JSON array. -/
inductive JsonList where
  | nil
  | cons (head : Json) (tail : JsonList)
/-- The members (key, value) of a JSON object. -/
inductive JsonMembers where
  | nil
  | cons (key : JSString) (value : Json) (tail : JsonMembers)
end

/-- A JavaScript value that may be `undefined` (`none`). -/
abbrev JSValue := Option Json

/-! ## `JSON.stringify` -/

/-- The escape `\uXXXX` of a code unit (ECMA-262 UnicodeEscape), lower-case hex. -/
def unicodeEscape (c : Nat) : JSString :=
  [92, 117, hexDigitLower (c / 4096 % 16), hexDigitLower (c / 256 % 16),
    hexDigitLower (c / 16 % 16), hexDigitLower (c % 16)]

/-- Escape of one code unit that is not part of a surrogate pair
(ECMA-262 QuoteJSONString, the per-code-point step). -/
def quoteUnit (c : Nat) : JSString :=
  if c = 8 then [92, 98]
  else if c = 9 then [92, 116]
  else if c = 10 then [92, 110]
  else if c = 12 then [92, 102]
  else if c = 13 then [92, 114]
  else if c = 34 then [92, 34]
  else if c = 92 then [92, 92]
  else if c < 32 ∨ isHighSurrogate c ∨ isLowSurrogate c then unicodeEscape c
  else [c]

/-- The escaped characters of a string, without the surrounding quotes.  A high
surrogate followed by a low surrogate is one code point and is copied; a lone
surrogate is escaped. -/
def quoteChars : JSString → JSString
  | [] => []
  | [c] => quoteUnit c
  | c :: d :: rest =>
    if isHighSurrogate c && isLowSurrogate d then c :: d :: quoteChars rest
    else quoteUnit c ++ quoteChars (d :: rest)

/-- ECMA-262 QuoteJSONString. -/
def quoteJSONString (s : JSString) : JSString := 34 :: (quoteChars s ++ [34])

mutual
/-- ECMA-262 SerializeJSONProperty for a JSON value, with the current
indentation `indent` and the indentation step `gap` (empty for compact output). -/
def serializeValue (gap indent : JSString) : Json → JSString
  | Json.null => [110, 117, 108, 108]
  | Json.bool true => [116, 114, 117, 101]
  | Json.bool false => [102, 97, 108, 115, 101]
  | Json.num n => intToString n
  | Json.str s => quoteJSONString s
  | Json.arr JsonList.nil => [91, 93]
  | Json.arr (JsonList.cons x xs) =>
    if gap = [] then
      91 :: (serializeValue gap (indent ++ gap) x
        ++ serializeItems gap (indent ++ gap) [44] xs ++ [93])
    else
      [91, 10] ++ (indent ++ gap) ++ serializeValue gap (indent ++ gap) x
        ++ serializeItems gap (indent ++ gap) ([44, 10] ++ (indent ++ gap)) xs
        ++ [10] ++ indent ++ [93]
  | Json.obj JsonMembers.nil => [123, 125]
  | Json.obj (JsonMembers.cons k v ms) =>
    if gap = [] then
      123 :: (quoteJSONString k ++ [58] ++ serializeValue gap (indent ++ gap) v
        ++ serializeMembers gap (indent ++ gap) [44] ms ++ [125])
    else
      [123, 10] ++ (indent ++ gap) ++ quoteJSONString k ++ [58, 32]
        ++ serializeValue gap (indent ++ gap) v
        ++ serializeMembers gap (indent ++ gap) ([44, 10] ++ (indent ++ gap)) ms
        ++ [10] ++ indent ++ [125]
/-- The second and later elements of an array, each preceded by the separator. -/
def serializeItems (gap indent sep : JSString) : JsonList → JSString
  | JsonList.nil => []
  | JsonList.cons x xs =>
    sep ++ serializeValue gap indent x ++ serializeItems gap indent sep xs
/-- The second and later members of an object, each preceded by the separator. -/
def serializeMembers (gap indent sep : JSString) : JsonMembers → JSString
  | JsonMembers.nil => []
  | JsonMembers.cons k v ms =>
    sep ++ quoteJSONString k ++ (if gap = [] then [58] else [58, 32])
      ++ serializeValue gap indent v ++ serializeMembers gap indent sep ms
end

/-- The call `JSON.stringify(value, null, space)` for a JSON value: the gap is
`min space 10` spaces; `space = 0` is the one-argument call. -/
def JSON.stringify (value : Json) (space : Nat) : JSString :=
  serializeValue (List.replicate (min space 10) 32) [] value

/-! ## `JSON.parse` -/

/-- JSON white space: tab, line feed, carriage return, space. -/
def isJsonWhitespace (c : Nat) : Bool := c = 9 || c = 10 || c = 13 || c = 32

/-- Skip JSON white space. -/
def skipWs : List Nat → List Nat
  | [] => []
  | c :: cs => if isJsonWhitespace c then skipWs cs else c :: cs

/-- Remove the expected characters `p` from the front of the input. -/
def dropLiteral : List Nat → List Nat → Option (List Nat)
  | [], cs => some cs
  | _ :: _, [] => none
  | p :: ps, c :: cs => if p = c then dropLiteral ps cs else none

/-- Read decimal digits, accumulating their value. -/
def parseDigits : List Nat → Nat → Nat × List Nat
  | [], acc => (acc, [])
  | c :: cs, acc =>
    if 48 ≤ c ∧ c ≤ 57 then parseDigits cs (acc * 10 + (c - 48)) else (acc, c :: cs)

/-- The integer part of a JSON number: `0`, or a non-zero digit followed by digits. -/
def parseNat : List Nat → Option (Nat × List Nat)
  | [] => none
  | c :: cs =>
    if c = 48 then some (0, cs)
    else if 49 ≤ c ∧ c ≤ 57 then some (parseDigits cs (c - 48))
    else none

/-- A JSON number.  Only integer literals are in the modelled fragment: a
literal continued by a fraction (`.`) or an exponent (`e`, `E`) is reported as
a failure. -/
def parseNumber (cs : List Nat) : Option (Int × List Nat) :=
  let signed : Bool × List Nat :=
    match cs with
    | [] => (false, [])
    | c :: rest => if c = 45 then (true, rest) else (false, c :: rest)
  match parseNat signed.2 with
  | none => none
  | some (n, rest) =>
    let value : Int := if signed.1 then -(n : Int) else (n : Int)
    match rest with
    | [] => some (value, [])
    | c :: rest1 =>
      if c = 46 ∨ c = 101 ∨ c = 69 then none else some (value, c :: rest1)

/-- The characters of a JSON string after the opening quote, up to and
including the closing quote.  Raw control characters are rejected; the escapes
are those of the JSON grammar; `\uXXXX` yields one code unit. -/
def parseChars : List Nat → Option (JSString × List Nat)
  | [] => none
  | c :: cs =>
    if c = 34 then some ([], cs)
    else if c = 92 then
      match cs with
      | [] => none
      | e :: cs1 =>
        if e = 117 then
          match cs1 with
          | h1 :: h2 :: h3 :: h4 :: cs2 =>
            match hexValue h1, hexValue h2, hexValue h3, hexValue h4 with
            | some a, some b, some c1, some d =>
              (parseChars cs2).map fun r => ((((a * 16 + b) * 16 + c1) * 16 + d) :: r.1, r.2)
            | _, _, _, _ => none
          | _ => none
        else
          let unit : Option Nat :=
            if e = 34 then some 34
            else if e = 92 then some 92
            else if e = 47 then some 47
            else if e = 98 then some 8
            else if e = 102 then some 12
            else if e = 110 then some 10
            else if e = 114 then some 13
            else if e = 116 then some 9
            else none
          match unit with
          | none => none
          | some u => (parseChars cs1).map fun r => (u :: r.1, r.2)
    else if c < 32 then none
    else (parseChars cs).map fun r => (c :: r.1, r.2)

mutual
/-- Parse one JSON value (after optional white space); `fuel` bounds the
number of nested calls. -/
def parseValue : Nat → List Nat → Option (Json × List Nat)
  | 0, _ => none
  | fuel + 1, cs =>
    match skipWs cs with
    | [] => none
    | c :: rest =>
      if c = 110 then (dropLiteral [117, 108, 108] rest).map fun r => (Json.null, r)
      else if c = 116 then (dropLiteral [114, 117, 101] rest).map fun r => (Json.bool true, r)
      else if c = 102 then
        (dropLiteral [97, 108, 115, 101] rest).map fun r => (Json.bool false, r)
      else if c = 34 then (parseChars rest).map fun r => (Json.str r.1, r.2)
      else if c = 91 then
        match skipWs rest with
        | [] => none
        | d :: rest1 =>
          if d = 93 then some (Json.arr JsonList.nil, rest1)
          else (parseItems fuel (d :: rest1)).map fun r => (Json.arr r.1, r.2)
      else if c = 123 then
        match skipWs rest with
        | [] => none
        | d :: rest1 =>
          if d = 125 then some (Json.obj JsonMembers.nil, rest1)
          else (parseMembers fuel (d :: rest1)).map fun r => (Json.obj r.1, r.2)
      else if c = 45 ∨ (48 ≤ c ∧ c ≤ 57) then
        (parseNumber (c :: rest)).map fun r => (Json.num r.1, r.2)
      else none
/-- Parse `value (, value)* ]`. -/
def parseItems : Nat → List Nat → Option (JsonList × List Nat)
  | 0, _ => none
  | fuel + 1, cs =>
    match parseValue fuel cs with
    | none => none
    | some (v, rest) =>
      match skipWs rest with
      | [] => none
      | c :: rest1 =>
        if c = 44 then (parseItems fuel rest1).map fun r => (JsonList.cons v r.1, r.2)
        else if c = 93 then some (JsonList.cons v JsonList.nil, rest1)
        else none
/-- Parse `string : value (, string : value)* }`. -/
def parseMembers : Nat → List Nat → Option (JsonMembers × List Nat)
  | 0, _ => none
  | fuel + 1, cs =>
    match skipWs cs with
    | [] => none
    | q :: rest =>
      if q = 34 then
        match parseChars rest with
        | none => none
        | some (k, rest1) =>
          match skipWs rest1 with
          | [] => none
          | colon :: rest2 =>
            if colon = 58 then
              match parseValue fuel rest2 with
              | none => none
              | some (v, rest3) =>
                match skipWs rest3 with
                | [] => none
                | c :: rest4 =>
                  if c = 44 then
                    (parseMembers fuel rest4).map fun r => (JsonMembers.cons k v r.1, r.2)
                  else if c = 125 then some (JsonMembers.cons k v JsonMembers.nil, rest4)
                  else none
            else none
      else none
end

/-- The call `JSON.parse(text)`: `none` stands for the thrown `SyntaxError`.
Members of an object are kept in text order. -/
def JSON.parse (text : JSString) : Option Json :=
  match parseValue (text.length + 1) text with
  | none => none
  | some (v, rest) => if skipWs rest = [] then some v else none

/-! ## `ToString`, truthiness and property access -/

mutual
/-- ECMA-262 ToString of a JSON value (`String(v)`, template literals,
`new Error(v)`): an array is its elements joined by commas with `null` printed
as the empty string, an object is `[object Object]`. -/
def Json.toJSString : Json → JSString
  | Json.null => [110, 117, 108, 108]
  | Json.bool true => [116, 114, 117, 101]
  | Json.bool false => [102, 97, 108, 115, 101]
  | Json.num n => intToString n
  | Json.str s => s
  | Json.arr JsonList.nil => []
  | Json.arr (JsonList.cons x xs) =>
    (match x with
      | Json.null => []
      | y => Json.toJSString y) ++ JsonList.joinRest xs
  | Json.obj _ => [91, 111, 98, 106, 101, 99, 116, 32, 79, 98, 106, 101, 99, 116, 93]
/-- The second and later elements of `Array.prototype.join`, each after a comma. -/
def JsonList.joinRest : JsonList → JSString
  | JsonList.nil => []
  | JsonList.cons x xs =>
    44 :: ((match x with
      | Json.null => []
      | y => Json.toJSString y) ++ JsonList.joinRest xs)
end

/-- ECMA-262 ToString of a value that may be `undefined`. -/
def jsToString : JSValue → JSString
  | none => lit "undefined"
  | some v => v.toJSString

/-- ECMA-262 ToBoolean: `undefined`, `null`, `false`, `0` and `""` are falsy. -/
def isTruthy : JSValue → Bool
  | none => false
  | some Json.null => false
  | some (Json.bool b) => b
  | some (Json.num n) => decide (n ≠ 0)
  | some (Json.str s) => decide (s ≠ [])
  | some (Json.arr _) => true
  | some (Json.obj _) => true

/-- The operator `a && b`: the left operand when it is falsy, else the right one. -/
def jsAnd (a b : Json) : Json := if isTruthy (some a) then b else a

/-- The operator `s || d` where `s` is a string or `null` (`none`), as in
`localStorage.getItem(k) || d`. -/
def strOr (s : Option JSString) (d : JSString) : JSString :=
  match s with
  | none => d
  | some t => if t = [] then d else t

/-- The value of member `key` of an object; the last member with that key wins,
as it does when `JSON.parse` meets a repeated key. -/
def JsonMembers.get : JsonMembers → JSString → JSValue
  | JsonMembers.nil, _ => none
  | JsonMembers.cons k v ms, key =>
    match JsonMembers.get ms key with
    | some w => some w
    | none => if k = key then some v else none

/-- The property read `v.key` for the keys the script reads (`sha`, `content`,
`message`, `full_name`), none of which is a built-in property: `none` stands
for the `TypeError` thrown on `null`; an object yields its member or
`undefined`; every other value yields `undefined`. -/
def Json.getProp (v : Json) (key : JSString) : Option JSValue :=
  match v with
  | Json.null => none
  | Json.obj ms => some (ms.get key)
  | _ => some none

/-! ## `encodeURIComponent`, `unescape`, `btoa`, `atob` -/

/-- The characters `encodeURIComponent` leaves alone: letters, digits and
`- _ . ! ~ * ' ( )`. -/
def isUriUnreserved (c : Nat) : Bool :=
  (decide (65 ≤ c) && decide (c ≤ 90)) || (decide (97 ≤ c) && decide (c ≤ 122))
    || (decide (48 ≤ c) && decide (c ≤ 57))
    || c = 45 || c = 95 || c = 46 || c = 33 || c = 126 || c = 42 || c = 39 || c = 40 || c = 41

/-- The UTF-8 octets of a code point. -/
def utf8Octets (cp : Nat) : List Nat :=
  if cp < 128 then [cp]
  else if cp < 2048 then [192 + cp / 64, 128 + cp % 64]
  else if cp < 65536 then [224 + cp / 4096, 128 + cp / 64 % 64, 128 + cp % 64]
  else [240 + cp / 262144 % 8, 128 + cp / 4096 % 64, 128 + cp / 64 % 64, 128 + cp % 64]

/-- One octet as `%XX` with upper-case hexadecimal digits. -/
def percentOctet (b : Nat) : JSString := [37, hexDigitUpper (b / 16), hexDigitUpper (b % 16)]

/-- The percent-encoding of the UTF-8 octets of a code point. -/
def percentEncode (cp : Nat) : JSString := (utf8Octets cp).flatMap percentOctet

/-- The call `encodeURIComponent(s)` (ECMA-262 Encode): `none` stands for the
`URIError` thrown on an unpaired surrogate. -/
def encodeURIComponent : JSString → Option JSString
  | [] => some []
  | [c] =>
    if isUriUnreserved c then some [c]
    else if isHighSurrogate c || isLowSurrogate c then none
    else some (percentEncode c)
  | c :: d :: rest =>
    if isUriUnreserved c then (encodeURIComponent (d :: rest)).map fun r => c :: r
    else if isHighSurrogate c then
      if isLowSurrogate d then
        (encodeURIComponent rest).map fun r =>
          percentEncode ((c - 55296) * 1024 + (d - 56320) + 65536) ++ r
      else none
    else if isLowSurrogate c then none
    else (encodeURIComponent (d :: rest)).map fun r => percentEncode c ++ r

/-- The call `unescape(s)` (ECMA-262 B.2.1.2): `%uXXXX` and `%XX` become the
code unit they name, everything else is copied. -/
def unescape : JSString → JSString
  | [] => []
  | c :: cs =>
    if c = 37 then
      match cs with
      | a :: b :: h2 :: h3 :: h4 :: rest =>
        if a = 117 then
          match hexValue b, hexValue h2, hexValue h3, hexValue h4 with
          | some x1, some x2, some x3, some x4 =>
            (((x1 * 16 + x2) * 16 + x3) * 16 + x4) :: unescape rest
          | _, _, _, _ => 37 :: unescape (a :: b :: h2 :: h3 :: h4 :: rest)
        else
          match hexValue a, hexValue b with
          | some x1, some x2 => (x1 * 16 + x2) :: unescape (h2 :: h3 :: h4 :: rest)
          | _, _ => 37 :: unescape (a :: b :: h2 :: h3 :: h4 :: rest)
      | a :: b :: tail =>
        match hexValue a, hexValue b with
        | some x1, some x2 => (x1 * 16 + x2) :: unescape tail
        | _, _ => 37 :: unescape (a :: b :: tail)
      | tail => 37 :: unescape tail
    else c :: unescape cs

/-- The base64 character of a 6-bit value. -/
def base64Char (n : Nat) : Nat :=
  if n < 26 then 65 + n
  else if n < 52 then 71 + n
  else if n < 62 then n - 4
  else if n = 62 then 43
  else 47

/-- The 6-bit value of a base64 character. -/
def base64Value (c : Nat) : Option Nat :=
  if 65 ≤ c ∧ c ≤ 90 then some (c - 65)
  else if 97 ≤ c ∧ c ≤ 122 then some (c - 71)
  else if 48 ≤ c ∧ c ≤ 57 then some (c + 4)
  else if c = 43 then some 62
  else if c = 47 then some 63
  else none

/-- Base64 of a list of octets, three at a time, with `=` padding. -/
def base64Encode : List Nat → JSString
  | [] => []
  | [a] => [base64Char (a / 4), base64Char (a % 4 * 16), 61, 61]
  | [a, b] => [base64Char (a / 4), base64Char (a % 4 * 16 + b / 16), base64Char (b % 16 * 4), 61]
  | a :: b :: c :: rest =>
    base64Char (a / 4) :: base64Char (a % 4 * 16 + b / 16)
      :: base64Char (b % 16 * 4 + c / 64) :: base64Char (c % 64) :: base64Encode rest

/-- The call `btoa(s)`: `none` stands for the `InvalidCharacterError` thrown
when a code unit is above 255. -/
def btoa (s : JSString) : Option JSString :=
  if s.all fun c => decide (c < 256) then some (base64Encode s) else none

/-- ASCII white space as `atob` strips it: tab, line feed, form feed, carriage
return, space. -/
def isAsciiWhitespace (c : Nat) : Bool := c = 9 || c = 10 || c = 12 || c = 13 || c = 32

/-- The 6-bit values of a list of base64 characters, if all are in the alphabet. -/
def base64Values : List Nat → Option (List Nat)
  | [] => some []
  | c :: cs =>
    match base64Value c, base64Values cs with
    | some v, some vs => some (v :: vs)
    | _, _ => none

/-- The octets named by a list of 6-bit values; an incomplete final group
yields one or two octets and its spare bits are dropped. -/
def base64Octets : List Nat → List Nat
  | a :: b :: c :: d :: rest =>
    (a * 4 + b / 16) :: (b % 16 * 16 + c / 4) :: (c % 4 * 64 + d) :: base64Octets rest
  | [a, b, c] => [a * 4 + b / 16, b % 16 * 16 + c / 4]
  | [a, b] => [a * 4 + b / 16]
  | _ => []

/-- Remove one or two trailing `=` signs. -/
def stripPadding (s : JSString) : JSString :=
  match s.reverse with
  | a :: b :: rest =>
    if a = 61 then (if b = 61 then rest.reverse else (b :: rest).reverse) else s
  | [a] => if a = 61 then [] else s
  | [] => s

/-- The call `atob(data)` (WHATWG forgiving-base64 decode): `none` stands for
the `InvalidCharacterError`. -/
def atob (data : JSString) : Option JSString :=
  let stripped := data.filter fun c => !isAsciiWhitespace c
  let unpadded := if stripped.length % 4 = 0 then stripPadding stripped else stripped
  if unpadded.length % 4 = 1 then none
  else (base64Values unpadded).map base64Octets

/-! ## The browser environment -/

/-- The keys of `localStorage` the script uses. -/
inductive StorageKey where
  | github_token
  | github_repo_owner
  | github_repo_name
  | github_repo_branch
  | fuwakoArticles
  deriving DecidableEq

/-- The browser `localStorage`: `none` is the `null` that `getItem` returns for
a missing key. -/
abbrev LocalStorage := StorageKey → Option JSString

/-- The call `localStorage.getItem(key)`. -/
def LocalStorage.getItem (ls : LocalStorage) (key : StorageKey) : Option JSString := ls key

/-- The call `localStorage.setItem(key, value)` for a string value. -/
def LocalStorage.setItem (ls : LocalStorage) (key : StorageKey) (value : JSString) :
    LocalStorage :=
  fun k => if k = key then some value else ls k

/-- HTTP methods the script uses. -/
inductive Method where
  | GET
  | PUT
  deriving DecidableEq

/-- One call of `fetch`: method, URL, headers and body. -/
structure Request where
  method : Method
  url : JSString
  headers : List (JSString × JSString)
  body : Option JSString
  deriving DecidableEq

/-- What a call of `fetch` does: it rejects (transport failure, with the
message of the error), or resolves with a response (status and body text). -/
inductive FetchResult where
  | networkError (message : JSString)
  | response (status : Nat) (body : JSString)

/-- Faults raised by platform functions; their messages depend on the engine. -/
inductive PlatformFault where
  | jsonText
  | nullProperty
  | malformedURI
  | invalidCharacter

/-- Everything outside the script: the network, the clock, the engine's error
messages. -/
structure Env where
  fetch : Request → FetchResult
  localeNow : JSString
  faultMessage : PlatformFault → JSString

/-- A thrown `Error` object, by its `message`. -/
structure JSError where
  message : JSString

/-- The property `response.ok`: the status is in 200..299. -/
def responseOk (status : Nat) : Bool := decide (200 ≤ status) && decide (status ≤ 299)

/-- The call `JSON.parse(text)` as a computation that may throw. -/
def jsonParse (env : Env) (text : JSString) : Except JSError Json :=
  match JSON.parse text with
  | some v => Except.ok v
  | none => Except.error { message := env.faultMessage PlatformFault.jsonText }

/-- The property read `v.key` as a computation that may throw. -/
def readProp (env : Env) (v : Json) (key : JSString) : Except JSError JSValue :=
  match v.getProp key with
  | some w => Except.ok w
  | none => Except.error { message := env.faultMessage PlatformFault.nullProperty }

/-- The call `atob(v)` as a computation that may throw; the argument is
converted to a string first. -/
def atobCall (env : Env) (v : JSValue) : Except JSError JSString :=
  match atob (jsToString v) with
  | some s => Except.ok s
  | none => Except.error { message := env.faultMessage PlatformFault.invalidCharacter }

/-! ## `class GitHubManager` -/

/-- The fields of a `GitHubManager` object. -/
structure GitHubManager where
  token : JSString
  repoOwner : JSString
  repoName : JSString
  repoBranch : JSString
  dataPath : JSString
  apiBase : JSString

/-- The constructor: the fields are read from `localStorage`. -/
def GitHubManager.constructor (ls : LocalStorage) : GitHubManager :=
  { token := strOr (ls.getItem StorageKey.github_token) []
    repoOwner := strOr (ls.getItem StorageKey.github_repo_owner) []
    repoName := strOr (ls.getItem StorageKey.github_repo_name) []
    repoBranch := strOr (ls.getItem StorageKey.github_repo_branch) (lit "main")
    dataPath := lit "data/articles.json"
    apiBase := lit "https://api.github.com" }

/-- The method `isConfigured()`: `this.token && this.repoOwner && this.repoName`. -/
def GitHubManager.isConfigured (m : GitHubManager) : Json :=
  jsAnd (jsAnd (Json.str m.token) (Json.str m.repoOwner)) (Json.str m.repoName)

/-- The method `saveConfig(token, owner, name, branch)` for string arguments:
the returned value, the object and the store afterwards. -/
def GitHubManager.saveConfig (m : GitHubManager) (ls : LocalStorage)
    (token owner name branch : JSString) : Json × GitHubManager × LocalStorage :=
  let ls1 := ls.setItem StorageKey.github_token token
  let ls2 := ls1.setItem StorageKey.github_repo_owner owner
  let ls3 := ls2.setItem StorageKey.github_repo_name name
  let ls4 := ls3.setItem StorageKey.github_repo_branch branch
  let m1 : GitHubManager :=
    { m with token := token, repoOwner := owner, repoName := name, repoBranch := branch }
  (m1.isConfigured, m1, ls4)

/-- The two headers every request carries. -/
def GitHubManager.authHeaders (m : GitHubManager) : List (JSString × JSString) :=
  [(lit "Authorization", lit "token " ++ m.token),
   (lit "Accept", lit "application/vnd.github.v3+json")]

/-- The read of the document: `GET {apiBase}/repos/{owner}/{name}/contents/{dataPath}?ref={branch}`. -/
def GitHubManager.contentsRequest (m : GitHubManager) : Request :=
  { method := Method.GET
    url := m.apiBase ++ lit "/repos/" ++ m.repoOwner ++ lit "/" ++ m.repoName
      ++ lit "/contents/" ++ m.dataPath ++ lit "?ref=" ++ m.repoBranch
    headers := m.authHeaders
    body := none }

/-- The expression `JSON.parse(localStorage.getItem('fuwakoArticles') || '[]')`. -/
def readCache (env : Env) (ls : LocalStorage) : Except JSError Json :=
  jsonParse env (strOr (ls.getItem StorageKey.fuwakoArticles) (lit "[]"))

/-- Lines 113-115 of the script: `response.json()`, `atob(fileData.content)`,
`JSON.parse(content || '[]')`. -/
def decodeFile (env : Env) (body : JSString) : Except JSError Json :=
  match jsonParse env body with
  | Except.error e => Except.error e
  | Except.ok fileData =>
    match readProp env fileData (lit "content") with
    | Except.error e => Except.error e
    | Except.ok c =>
      match atobCall env c with
      | Except.error e => Except.error e
      | Except.ok content => jsonParse env (strOr (some content) (lit "[]"))

/-- The method `fetchArticles()`: the settled promise and the requests issued. -/
def GitHubManager.fetchArticles (env : Env) (m : GitHubManager) (ls : LocalStorage) :
    Except JSError Json × List Request :=
  if !isTruthy (some m.isConfigured) then (readCache env ls, [])
  else
    let attempt : Except JSError Json :=
      match env.fetch m.contentsRequest with
      | FetchResult.networkError e => Except.error { message := e }
      | FetchResult.response status body =>
        if status = 404 then Except.ok (Json.arr JsonList.nil)
        else if !responseOk status then
          Except.error { message := lit "获取失败：" ++ natToString status }
        else decodeFile env body
    match attempt with
    | Except.ok v => (Except.ok v, [m.contentsRequest])
    | Except.error _ => (readCache env ls, [m.contentsRequest])

/-- The expression `btoa(unescape(encodeURIComponent(JSON.stringify(articles, null, 2))))`. -/
def encodeContent (env : Env) (articles : Json) : Except JSError JSString :=
  match encodeURIComponent (JSON.stringify articles 2) with
  | none => Except.error { message := env.faultMessage PlatformFault.malformedURI }
  | some escaped =>
    match btoa (unescape escaped) with
    | none => Except.error { message := env.faultMessage PlatformFault.invalidCharacter }
    | some b => Except.ok b

/-- The method `getRawUrl()`. -/
def GitHubManager.getRawUrl (m : GitHubManager) : JSString :=
  lit "https://raw.githubusercontent.com/" ++ m.repoOwner ++ lit "/" ++ m.repoName
    ++ lit "/" ++ m.repoBranch ++ lit "/" ++ m.dataPath

/-! ## Predicates and measures used in the proofs -/

/-- The input after a number: empty, or a character that cannot continue the literal. -/
def NumberEnd : List Nat → Prop
  | [] => True
  | c :: _ => ¬ (48 ≤ c ∧ c ≤ 57) ∧ c ≠ 46 ∧ c ≠ 101 ∧ c ≠ 69

mutual
/-- Fuel the parser needs for a value. -/
def Json.cost : Json → Nat
  | Json.arr xs => 1 + JsonList.cost xs
  | Json.obj ms => 1 + JsonMembers.cost ms
  | _ => 1
/-- Fuel the parser needs for the elements of an array. -/
def JsonList.cost : JsonList → Nat
  | JsonList.nil => 0
  | JsonList.cons x xs => 1 + Json.cost x + JsonList.cost xs
/-- Fuel the parser needs for the members of an object. -/
def JsonMembers.cost : JsonMembers → Nat
  | JsonMembers.nil => 0
  | JsonMembers.cons _ v ms => 1 + Json.cost v + JsonMembers.cost ms
end

/-- The string has no unpaired surrogate: `encodeURIComponent` accepts it. -/
def Encodable (s : JSString) : Prop := ∃ e, encodeURIComponent s = some e

/-- No code unit of the string is a surrogate. -/
def NoSurrogate (s : JSString) : Prop :=
  ∀ c ∈ s, isHighSurrogate c = false ∧ isLowSurrogate c = false

/-! ## Sample inputs -/

/-- A `localStorage` with no entries. -/
def emptyStorage : LocalStorage := fun _ => none

/-- A `localStorage` whose cached document is the text `{`, which is not JSON. -/
def corruptStorage : LocalStorage := emptyStorage.setItem StorageKey.fuwakoArticles [123]

/-- The manager constructed over an empty store: nothing is configured. -/
def blankManager : GitHubManager := GitHubManager.constructor emptyStorage

/-- A configured manager: token `t`, repository `o/r`, branch `main`. -/
def sampleManager : GitHubManager :=
  (blankManager.saveConfig emptyStorage (lit "t") (lit "o") (lit "r") (lit "main")).2.1

/-- The document `["中"]`. -/
def chineseDoc : Json := Json.arr (JsonList.cons (Json.str (lit "中")) JsonList.nil)

/-- What the engine reports for platform faults in the sample environments. -/
def sampleFaultMessage : PlatformFault → JSString
  | PlatformFault.jsonText => lit "Unexpected end of JSON input"
  | PlatformFault.nullProperty => lit "Cannot read properties of null"
  | PlatformFault.malformedURI => lit "URI malformed"
  | PlatformFault.invalidCharacter => lit "Invalid character"

/-- An environment whose every request fails at transport level. -/
def offlineEnv : Env :=
  { fetch := fun _ => FetchResult.networkError (lit "Failed to fetch")
    localeNow := lit "2024/1/1 08:00:00"
    faultMessage := sampleFaultMessage }

/-- An environment where the document does not exist yet: the read answers 404
and the write answers 201. -/
def createEnv : Env :=
  { fetch := fun r =>
      match r.method with
      | Method.GET => FetchResult.response 404 (lit "\x7b\"message\":\"Not Found\"\x7d")
      | Method.PUT => FetchResult.response 201 (lit "\x7b\x7d")
    localeNow := lit "2024/1/1 08:00:00"
    faultMessage := sampleFaultMessage }

/-- An environment whose read answers 200 with a file of the given base64 content. -/
def serveFile (content : JSString) : Env :=
  { fetch := fun _ =>
      FetchResult.response 200
        (JSON.stringify
          (Json.obj (JsonMembers.cons (lit "content") (Json.str content) JsonMembers.nil)) 0)
    localeNow := lit "2024/1/1 08:00:00"
    faultMessage := sampleFaultMessage }

/-! ## Lemmas on the platform model -/

theorem natDigits_acc (fuel : Nat) : ∀ (n : Nat) (acc : List Nat),
    natDigits fuel n acc = natDigits fuel n [] ++ acc := by
  induction fuel with
  | zero => intro n acc; simp [natDigits]
  | succ k ih =>
    intro n acc
    unfold natDigits
    by_cases h : n < 10
    · simp [h]
    · simp only [h, if_false]
      rw [ih (n / 10) ((48 + n % 10) :: acc), ih (n / 10) [48 + n % 10]]
      simp

theorem natDigits_fuel (f1 : Nat) : ∀ (f2 n : Nat), n < f1 → n < f2 →
    natDigits f1 n [] = natDigits f2 n [] := by
  induction f1 with
  | zero => intro f2 n h; omega
  | succ k ih =>
    intro f2 n h1 h2
    cases f2 with
    | zero => omega
    | succ j =>
      unfold natDigits
      by_cases h : n < 10
      · simp [h]
      · simp only [h, if_false]
        rw [natDigits_acc k, natDigits_acc j, ih j (n / 10) (by omega) (by omega)]

theorem natToString_small (n : Nat) (h : n < 10) : natToString n = [48 + n] := by
  simp [natToString, natDigits, h]

theorem natToString_large (n : Nat) (h : 10 ≤ n) :
    natToString n = natToString (n / 10) ++ [48 + n % 10] := by
  have h' : ¬ n < 10 := by omega
  simp only [natToString]
  rw [natDigits, if_neg h', natDigits_acc, natDigits_fuel n (n / 10 + 1) (n / 10) (by omega) (by omega)]

theorem natToString_digits (n : Nat) : ∀ c ∈ natToString n, 48 ≤ c ∧ c ≤ 57 := by
  induction n using Nat.strong_induction_on with
  | _ n ih =>
    by_cases h : n < 10
    · rw [natToString_small n h]; intro c hc; simp at hc; omega
    · rw [natToString_large n (by omega)]
      intro c hc
      rcases List.mem_append.mp hc with hc | hc
      · exact ih (n / 10) (by omega) c hc
      · simp at hc; omega

theorem natToString_head (n : Nat) : ∃ c cs, natToString n = c :: cs ∧ 48 ≤ c ∧ c ≤ 57 ∧
    (0 < n → 49 ≤ c) ∧ (n = 0 → cs = []) := by
  induction n using Nat.strong_induction_on with
  | _ n ih =>
    by_cases h : n < 10
    · exact ⟨48 + n, [], natToString_small n h, by omega, by omega, by omega, fun _ => rfl⟩
    · obtain ⟨c, cs, hcs, h1, h2, h3, _⟩ := ih (n / 10) (by omega)
      refine ⟨c, cs ++ [48 + n % 10], ?_, h1, h2, fun _ => h3 (by omega), fun h0 => by omega⟩
      rw [natToString_large n (by omega), hcs]; rfl

theorem parseDigits_append (l : List Nat) : ∀ (acc : Nat) (tail : List Nat),
    (∀ c ∈ l, 48 ≤ c ∧ c ≤ 57) →
    parseDigits (l ++ tail) acc = parseDigits tail (l.foldl (fun a c => a * 10 + (c - 48)) acc) := by
  induction l with
  | nil => intro acc tail _; rfl
  | cons c cs ih =>
    intro acc tail h
    have hc := h c (List.mem_cons_self c cs)
    simp only [List.cons_append, parseDigits, hc, and_self, if_true, List.foldl_cons]
    exact ih _ _ fun x hx => h x (List.mem_cons_of_mem c hx)

theorem parseDigits_end (tail : List Nat) (acc : Nat) (h : NumberEnd tail) :
    parseDigits tail acc = (acc, tail) := by
  cases tail with
  | nil => rfl
  | cons c cs => simp only [NumberEnd] at h; simp [parseDigits, h.1]

theorem natToString_value (n : Nat) :
    (natToString n).foldl (fun a c => a * 10 + (c - 48)) 0 = n := by
  induction n using Nat.strong_induction_on with
  | _ n ih =>
    by_cases h : n < 10
    · rw [natToString_small n h]; simp
    · rw [natToString_large n (by omega), List.foldl_append, ih (n / 10) (by omega)]
      simp; omega

theorem parseNat_natToString (n : Nat) (tail : List Nat) (h : NumberEnd tail) :
    parseNat (natToString n ++ tail) = some (n, tail) := by
  obtain ⟨c, cs, hcs, h1, h2, h3, h4⟩ := natToString_head n
  have hval := natToString_value n
  have hdig := natToString_digits n
  rw [hcs] at hval hdig ⊢
  simp only [List.cons_append, parseNat]
  by_cases hc : c = 48
  · have hn : n = 0 := by
      by_contra hne
      have := h3 (Nat.pos_of_ne_zero hne)
      omega
    subst hn
    rw [h4 rfl]
    simp [hc]
  · have hc' : 49 ≤ c ∧ c ≤ 57 := by omega
    simp only [hc, if_false, hc', and_self, if_true]
    rw [parseDigits_append cs _ tail (fun x hx => hdig x (List.mem_cons_of_mem c hx)),
      parseDigits_end _ _ h]
    simp only [List.foldl_cons, Nat.zero_mul, Nat.zero_add] at hval
    rw [hval]

theorem parseNumber_intToString (n : Int) (tail : List Nat) (h : NumberEnd tail) :
    parseNumber (intToString n ++ tail) = some (n, tail) := by
  cases n with
  | ofNat k =>
    obtain ⟨c, cs, hcs, h1, h2, _, _⟩ := natToString_head k
    have hp := parseNat_natToString k tail h
    simp only [intToString]
    rw [hcs] at hp ⊢
    rw [List.cons_append] at hp
    have hc : c ≠ 45 := by omega
    simp only [parseNumber, List.cons_append, hc, if_false, hp]
    cases tail with
    | nil => simp
    | cons d ds =>
      simp only [NumberEnd] at h
      simp [h.2.1, h.2.2.1, h.2.2.2]
  | negSucc k =>
    have hp := parseNat_natToString (k + 1) tail h
    simp only [intToString, parseNumber, List.cons_append, if_true, hp]
    cases tail with
    | nil => simp [Int.negSucc_eq]
    | cons d ds =>
      simp only [NumberEnd] at h
      simp [h.2.1, h.2.2.1, h.2.2.2, Int.negSucc_eq]

theorem parseChars_close (cs : List Nat) : parseChars (34 :: cs) = some ([], cs) := by
  rw [parseChars.eq_def]; simp

theorem parseChars_raw (c : Nat) (h1 : 32 ≤ c) (h2 : c ≠ 34) (h3 : c ≠ 92) (tail : List Nat) :
    parseChars (c :: tail) = (parseChars tail).map fun r => (c :: r.1, r.2) := by
  have h : ¬ c < 32 := by omega
  rw [parseChars.eq_def]
  simp [h2, h3, h]

theorem parseChars_simple (e u : Nat) (cs : List Nat) (he : e ≠ 117)
    (hu : (if e = 34 then some 34
            else if e = 92 then some 92
            else if e = 47 then some 47
            else if e = 98 then some 8
            else if e = 102 then some 12
            else if e = 110 then some 10
            else if e = 114 then some 13
            else if e = 116 then some 9
            else none) = some u) :
    parseChars (92 :: e :: cs) = (parseChars cs).map fun r => (u :: r.1, r.2) := by
  rw [parseChars.eq_def]
  simp only [he, if_false]
  simp only [hu]
  simp

theorem parseChars_hex (h1 h2 h3 h4 a b c d : Nat) (cs : List Nat)
    (e1 : hexValue h1 = some a) (e2 : hexValue h2 = some b) (e3 : hexValue h3 = some c)
    (e4 : hexValue h4 = some d) :
    parseChars (92 :: 117 :: h1 :: h2 :: h3 :: h4 :: cs)
      = (parseChars cs).map fun r => ((((a * 16 + b) * 16 + c) * 16 + d) :: r.1, r.2) := by
  rw [parseChars.eq_def]
  simp [e1, e2, e3, e4]

theorem hexValue_hexDigitLower (d : Nat) (h : d < 16) : hexValue (hexDigitLower d) = some d := by
  interval_cases d <;> rfl

theorem parseChars_unicodeEscape (c : Nat) (h : c < 65536) (tail : List Nat) :
    parseChars (unicodeEscape c ++ tail) = (parseChars tail).map fun r => (c :: r.1, r.2) := by
  have e : ((c / 4096 % 16 * 16 + c / 256 % 16) * 16 + c / 16 % 16) * 16 + c % 16 = c := by omega
  simp only [unicodeEscape, List.cons_append, List.nil_append]
  rw [parseChars_hex _ _ _ _ _ _ _ _ tail
    (hexValue_hexDigitLower _ (Nat.mod_lt _ (by norm_num)))
    (hexValue_hexDigitLower _ (Nat.mod_lt _ (by norm_num)))
    (hexValue_hexDigitLower _ (Nat.mod_lt _ (by norm_num)))
    (hexValue_hexDigitLower _ (Nat.mod_lt _ (by norm_num))), e]

theorem parseChars_quoteUnit (c : Nat) (tail : List Nat) :
    parseChars (quoteUnit c ++ tail) = (parseChars tail).map fun r => (c :: r.1, r.2) := by
  unfold quoteUnit
  split_ifs with h8 h9 h10 h12 h13 h34 h92 hesc
  · subst h8; exact parseChars_simple 98 8 tail (by decide) rfl
  · subst h9; exact parseChars_simple 116 9 tail (by decide) rfl
  · subst h10; exact parseChars_simple 110 10 tail (by decide) rfl
  · subst h12; exact parseChars_simple 102 12 tail (by decide) rfl
  · subst h13; exact parseChars_simple 114 13 tail (by decide) rfl
  · subst h34; exact parseChars_simple 34 34 tail (by decide) rfl
  · subst h92; exact parseChars_simple 92 92 tail (by decide) rfl
  · apply parseChars_unicodeEscape
    simp only [isHighSurrogate, isLowSurrogate, Bool.and_eq_true, decide_eq_true_eq] at hesc
    omega
  · simp only [isHighSurrogate, isLowSurrogate, Bool.and_eq_true, decide_eq_true_eq, not_or] at hesc
    exact parseChars_raw c (by omega) h34 h92 tail

theorem parseChars_quoteChars (s : JSString) : ∀ (tail : List Nat),
    parseChars (quoteChars s ++ 34 :: tail) = some (s, tail) := by
  induction s using quoteChars.induct with
  | case1 => intro tail; simp [quoteChars, parseChars_close]
  | case2 c =>
    intro tail
    rw [quoteChars, parseChars_quoteUnit, parseChars_close]
    rfl
  | case3 c d rest hpair ih =>
    intro tail
    have hp := hpair
    simp only [Bool.and_eq_true, isHighSurrogate, isLowSurrogate, decide_eq_true_eq] at hp
    rw [quoteChars, if_pos hpair]
    simp only [List.cons_append]
    rw [parseChars_raw c (by omega) (by omega) (by omega),
      parseChars_raw d (by omega) (by omega) (by omega), ih tail]
    rfl
  | case4 c d rest hpair ih =>
    intro tail
    rw [quoteChars, if_neg hpair, List.append_assoc, parseChars_quoteUnit, ih tail]
    rfl

theorem skipWs_cons (c : Nat) (cs : List Nat) (h : isJsonWhitespace c = false) :
    skipWs (c :: cs) = c :: cs := by
  simp [skipWs, h]

theorem intToString_head (n : Int) :
    ∃ c cs, intToString n = c :: cs ∧ (c = 45 ∨ (48 ≤ c ∧ c ≤ 57)) := by
  cases n with
  | ofNat k =>
    obtain ⟨c, cs, hcs, h1, h2, _, _⟩ := natToString_head k
    exact ⟨c, cs, hcs, Or.inr ⟨h1, h2⟩⟩
  | negSucc k => exact ⟨45, _, rfl, Or.inl rfl⟩

theorem parseValue_num (fuel : Nat) (n : Int) (tail : List Nat) (h : NumberEnd tail) :
    parseValue (fuel + 1) (intToString n ++ tail) = some (Json.num n, tail) := by
  have hp := parseNumber_intToString n tail h
  obtain ⟨c, cs, hcs, hc⟩ := intToString_head n
  rw [hcs] at hp ⊢
  rw [List.cons_append] at hp ⊢
  have hw : isJsonWhitespace c = false := by
    simp only [isJsonWhitespace, Bool.or_eq_false_iff, decide_eq_false_iff_not]
    omega
  rw [parseValue, skipWs_cons c _ hw]
  have h1 : c ≠ 110 := by omega
  have h2 : c ≠ 116 := by omega
  have h3 : c ≠ 102 := by omega
  have h4 : c ≠ 34 := by omega
  have h5 : c ≠ 91 := by omega
  have h6 : c ≠ 123 := by omega
  simp only [h1, h2, h3, h4, h5, h6, if_false, hc, if_true, hp]
  rfl

theorem parseValue_str (fuel : Nat) (s : JSString) (tail : List Nat) :
    parseValue (fuel + 1) (quoteJSONString s ++ tail) = some (Json.str s, tail) := by
  have hp := parseChars_quoteChars s tail
  simp only [quoteJSONString, List.cons_append, List.append_assoc, List.singleton_append]
  rw [parseValue, skipWs_cons 34 _ (by decide)]
  simp [hp]

theorem numberEnd_comma (t : List Nat) : NumberEnd (44 :: t) := by simp [NumberEnd]
theorem numberEnd_bracket (t : List Nat) : NumberEnd (93 :: t) := by simp [NumberEnd]
theorem numberEnd_brace (t : List Nat) : NumberEnd (125 :: t) := by simp [NumberEnd]

theorem serializeValue_head (gap indent : JSString) (v : Json) :
    ∃ c cs, serializeValue gap indent v = c :: cs ∧ isJsonWhitespace c = false ∧ c ≠ 93 := by
  cases v with
  | null => exact ⟨110, _, by rw [serializeValue], by decide, by decide⟩
  | bool b => cases b
              · exact ⟨102, _, by rw [serializeValue], by decide, by decide⟩
              · exact ⟨116, _, by rw [serializeValue], by decide, by decide⟩
  | num n =>
    obtain ⟨c, cs, hcs, hc⟩ := intToString_head n
    refine ⟨c, cs, by rw [serializeValue, hcs], ?_, by omega⟩
    simp only [isJsonWhitespace, Bool.or_eq_false_iff, decide_eq_false_iff_not]
    omega
  | str s => exact ⟨34, _, by rw [serializeValue, quoteJSONString], by decide, by decide⟩
  | arr xs =>
    cases xs with
    | nil => exact ⟨91, _, by rw [serializeValue], by decide, by decide⟩
    | cons x xs =>
      by_cases hg : gap = []
      · exact ⟨91, _, by rw [serializeValue, if_pos hg], by decide, by decide⟩
      · exact ⟨91, _, by rw [serializeValue, if_neg hg]; rfl, by decide, by decide⟩
  | obj ms =>
    cases ms with
    | nil => exact ⟨123, _, by rw [serializeValue], by decide, by decide⟩
    | cons k x xs =>
      by_cases hg : gap = []
      · exact ⟨123, _, by rw [serializeValue, if_pos hg], by decide, by decide⟩
      · exact ⟨123, _, by rw [serializeValue, if_neg hg]; rfl, by decide, by decide⟩

theorem parseValue_array (k : Nat) (body : List Nat) (c : Nat) (cs : List Nat)
    (hb : body = c :: cs) (hw : isJsonWhitespace c = false) (hc : c ≠ 93) :
    parseValue (k + 1) (91 :: body) = (parseItems k body).map fun r => (Json.arr r.1, r.2) := by
  subst hb
  rw [parseValue, skipWs_cons 91 _ (by decide)]
  simp [skipWs_cons c cs hw, hc]

theorem parseValue_object (k : Nat) (body : List Nat) :
    parseValue (k + 1) (123 :: 34 :: body)
      = (parseMembers k (34 :: body)).map fun r => (Json.obj r.1, r.2) := by
  rw [parseValue, skipWs_cons 123 _ (by decide)]
  simp [skipWs_cons 34 body (by decide)]

theorem parseMembers_step (k : Nat) (key : JSString) (v : Json) (body rest : List Nat)
    (hv : parseValue k body = some (v, rest)) :
    parseMembers (k + 1) (quoteJSONString key ++ 58 :: body)
      = match skipWs rest with
        | [] => none
        | c :: rest4 =>
          if c = 44 then (parseMembers k rest4).map fun r => (JsonMembers.cons key v r.1, r.2)
          else if c = 125 then some (JsonMembers.cons key v JsonMembers.nil, rest4)
          else none := by
  have hp := parseChars_quoteChars key (58 :: body)
  simp only [quoteJSONString, List.cons_append, List.append_assoc, List.singleton_append]
  rw [parseMembers, skipWs_cons 34 _ (by decide)]
  simp only [if_true, List.nil_append, hp, skipWs_cons 58 body (by decide), hv]

mutual
theorem parseValue_serialize : ∀ (v : Json) (indent tail : List Nat) (fuel : Nat),
    v.cost ≤ fuel → NumberEnd tail →
    parseValue fuel (serializeValue [] indent v ++ tail) = some (v, tail)
  | Json.null, indent, tail, fuel, hf, _ => by
    obtain ⟨k, rfl⟩ : ∃ k, fuel = k + 1 := ⟨fuel - 1, by simp [Json.cost] at hf; omega⟩
    simp [serializeValue, parseValue, skipWs, isJsonWhitespace, dropLiteral]
  | Json.bool true, indent, tail, fuel, hf, _ => by
    obtain ⟨k, rfl⟩ : ∃ k, fuel = k + 1 := ⟨fuel - 1, by simp [Json.cost] at hf; omega⟩
    simp [serializeValue, parseValue, skipWs, isJsonWhitespace, dropLiteral]
  | Json.bool false, indent, tail, fuel, hf, _ => by
    obtain ⟨k, rfl⟩ : ∃ k, fuel = k + 1 := ⟨fuel - 1, by simp [Json.cost] at hf; omega⟩
    simp [serializeValue, parseValue, skipWs, isJsonWhitespace, dropLiteral]
  | Json.num n, indent, tail, fuel, hf, ht => by
    obtain ⟨k, rfl⟩ : ∃ k, fuel = k + 1 := ⟨fuel - 1, by simp [Json.cost] at hf; omega⟩
    simpa [serializeValue] using parseValue_num k n tail ht
  | Json.str s, indent, tail, fuel, hf, _ => by
    obtain ⟨k, rfl⟩ : ∃ k, fuel = k + 1 := ⟨fuel - 1, by simp [Json.cost] at hf; omega⟩
    simpa [serializeValue] using parseValue_str k s tail
  | Json.arr JsonList.nil, indent, tail, fuel, hf, _ => by
    obtain ⟨k, rfl⟩ : ∃ k, fuel = k + 1 := ⟨fuel - 1, by simp [Json.cost] at hf; omega⟩
    simp [serializeValue, parseValue, skipWs, isJsonWhitespace]
  | Json.arr (JsonList.cons x xs), indent, tail, fuel, hf, _ => by
    obtain ⟨k, rfl⟩ : ∃ k, fuel = k + 1 := ⟨fuel - 1, by simp [Json.cost] at hf; omega⟩
    have hk : 1 + x.cost + xs.cost ≤ k := by simp [Json.cost, JsonList.cost] at hf; omega
    have hx := parseValue_serialize x
    have hxs := parseItems_serialize xs x indent tail k hk (fun t f h1 h2 => hx indent t f h1 h2)
    obtain ⟨c, cs, hcs, hw, hc⟩ := serializeValue_head [] indent x
    rw [serializeValue, if_pos rfl]
    simp only [List.append_nil, List.cons_append, List.append_assoc, List.singleton_append,
      List.nil_append]
    rw [parseValue_array k _ c _ (by rw [hcs]; rfl) hw hc, hxs]
    rfl
  | Json.obj JsonMembers.nil, indent, tail, fuel, hf, _ => by
    obtain ⟨k, rfl⟩ : ∃ k, fuel = k + 1 := ⟨fuel - 1, by simp [Json.cost] at hf; omega⟩
    simp [serializeValue, parseValue, skipWs, isJsonWhitespace]
  | Json.obj (JsonMembers.cons key v ms), indent, tail, fuel, hf, _ => by
    obtain ⟨k, rfl⟩ : ∃ k, fuel = k + 1 := ⟨fuel - 1, by simp [Json.cost] at hf; omega⟩
    have hk : 1 + v.cost + ms.cost ≤ k := by simp [Json.cost, JsonMembers.cost] at hf; omega
    have hv := parseValue_serialize v
    have hms := parseMembers_serialize ms key v indent tail k hk
      (fun t f h1 h2 => hv indent t f h1 h2)
    rw [serializeValue, if_pos rfl]
    simp only [List.append_nil, List.cons_append, List.append_assoc, List.singleton_append,
      List.nil_append]
    have hq : quoteJSONString key ++ 58 :: (serializeValue [] indent v
        ++ (serializeMembers [] indent [44] ms ++ 125 :: tail))
        = 34 :: (quoteChars key ++ 34 :: 58 :: (serializeValue [] indent v
        ++ (serializeMembers [] indent [44] ms ++ 125 :: tail))) := by
      simp [quoteJSONString]
    rw [hq] at hms ⊢
    rw [parseValue_object, hms]
    rfl
theorem parseItems_serialize : ∀ (xs : JsonList) (x : Json) (indent tail : List Nat) (fuel : Nat),
    1 + x.cost + xs.cost ≤ fuel →
    (∀ (t : List Nat) (f : Nat), x.cost ≤ f → NumberEnd t →
      parseValue f (serializeValue [] indent x ++ t) = some (x, t)) →
    parseItems fuel (serializeValue [] indent x ++ (serializeItems [] indent [44] xs ++ 93 :: tail))
      = some (JsonList.cons x xs, tail)
  | JsonList.nil, x, indent, tail, fuel, hf, hx => by
    obtain ⟨k, rfl⟩ : ∃ k, fuel = k + 1 := ⟨fuel - 1, by omega⟩
    have h := hx (93 :: tail) k (by omega) (numberEnd_bracket tail)
    simp only [serializeItems, List.nil_append]
    rw [parseItems, h]
    simp [skipWs, isJsonWhitespace]
  | JsonList.cons y ys, x, indent, tail, fuel, hf, hx => by
    obtain ⟨k, rfl⟩ : ∃ k, fuel = k + 1 := ⟨fuel - 1, by omega⟩
    have hk : 1 + y.cost + ys.cost ≤ k := by simp [JsonList.cost] at hf; omega
    have h := hx (44 :: (serializeValue [] indent y ++ (serializeItems [] indent [44] ys ++ 93 :: tail))) k
      (by omega) (numberEnd_comma _)
    have hy := parseValue_serialize y
    have hys := parseItems_serialize ys y indent tail k hk (fun t f h1 h2 => hy indent t f h1 h2)
    simp only [serializeItems, List.append_assoc, List.singleton_append, List.cons_append,
      List.nil_append]
    rw [parseItems, h]
    simp [skipWs, isJsonWhitespace, hys]
theorem parseMembers_serialize : ∀ (ms : JsonMembers) (key : JSString) (v : Json)
    (indent tail : List Nat) (fuel : Nat),
    1 + v.cost + ms.cost ≤ fuel →
    (∀ (t : List Nat) (f : Nat), v.cost ≤ f → NumberEnd t →
      parseValue f (serializeValue [] indent v ++ t) = some (v, t)) →
    parseMembers fuel (quoteJSONString key ++ 58 :: (serializeValue [] indent v
      ++ (serializeMembers [] indent [44] ms ++ 125 :: tail)))
      = some (JsonMembers.cons key v ms, tail)
  | JsonMembers.nil, key, v, indent, tail, fuel, hf, hv => by
    obtain ⟨k, rfl⟩ : ∃ k, fuel = k + 1 := ⟨fuel - 1, by omega⟩
    have h := hv (125 :: tail) k (by omega) (numberEnd_brace tail)
    simp only [serializeMembers, List.nil_append]
    rw [parseMembers_step k key v _ _ h]
    simp [skipWs, isJsonWhitespace]
  | JsonMembers.cons key2 w ws, key, v, indent, tail, fuel, hf, hv => by
    obtain ⟨k, rfl⟩ : ∃ k, fuel = k + 1 := ⟨fuel - 1, by omega⟩
    have hk : 1 + w.cost + ws.cost ≤ k := by simp [JsonMembers.cost] at hf; omega
    have hw := parseValue_serialize w
    have hws := parseMembers_serialize ws key2 w indent tail k hk
      (fun t f h1 h2 => hw indent t f h1 h2)
    have h := hv (44 :: (quoteJSONString key2 ++ 58 :: (serializeValue [] indent w
      ++ (serializeMembers [] indent [44] ws ++ 125 :: tail)))) k (by omega) (numberEnd_comma _)
    simp only [serializeMembers, if_true, List.append_assoc, List.singleton_append,
      List.cons_append, List.nil_append]
    rw [parseMembers_step k key v _ _ h]
    simp [skipWs, isJsonWhitespace, hws]
end

mutual
theorem cost_le_length : ∀ (v : Json) (indent : List Nat),
    v.cost ≤ (serializeValue [] indent v).length
  | Json.null, _ => by simp [Json.cost, serializeValue]
  | Json.bool true, _ => by simp [Json.cost, serializeValue]
  | Json.bool false, _ => by simp [Json.cost, serializeValue]
  | Json.num n, _ => by
    obtain ⟨c, cs, hcs, _⟩ := intToString_head n
    simp [Json.cost, serializeValue, hcs]
  | Json.str s, _ => by simp [Json.cost, serializeValue, quoteJSONString]
  | Json.arr JsonList.nil, _ => by simp [Json.cost, serializeValue, JsonList.cost]
  | Json.arr (JsonList.cons x xs), indent => by
    have h1 := cost_le_length x indent
    have h2 := itemsCost_le_length xs indent
    rw [serializeValue, if_pos rfl]
    simp only [Json.cost, JsonList.cost, List.append_nil, List.length_cons, List.length_append,
      List.length_nil]
    omega
  | Json.obj JsonMembers.nil, _ => by simp [Json.cost, serializeValue, JsonMembers.cost]
  | Json.obj (JsonMembers.cons k v ms), indent => by
    have h1 := cost_le_length v indent
    have h2 := membersCost_le_length ms indent
    rw [serializeValue, if_pos rfl]
    simp only [Json.cost, JsonMembers.cost, List.append_nil, List.length_cons,
      List.length_append, List.length_nil]
    omega
theorem itemsCost_le_length : ∀ (xs : JsonList) (indent : List Nat),
    xs.cost ≤ (serializeItems [] indent [44] xs).length
  | JsonList.nil, _ => by simp [JsonList.cost]
  | JsonList.cons x xs, indent => by
    have h1 := cost_le_length x indent
    have h2 := itemsCost_le_length xs indent
    simp only [JsonList.cost, serializeItems, List.length_cons, List.length_append,
      List.length_nil]
    omega
theorem membersCost_le_length : ∀ (ms : JsonMembers) (indent : List Nat),
    ms.cost ≤ (serializeMembers [] indent [44] ms).length
  | JsonMembers.nil, _ => by simp [JsonMembers.cost]
  | JsonMembers.cons k v ms, indent => by
    have h1 := cost_le_length v indent
    have h2 := membersCost_le_length ms indent
    simp only [JsonMembers.cost, serializeMembers, List.length_cons, List.length_append,
      List.length_nil]
    omega
end

theorem encodeURIComponent_nil : encodeURIComponent [] = some [] := by
  rw [encodeURIComponent]

theorem encodeURIComponent_unreserved (c : Nat) (t : JSString) (h : isUriUnreserved c = true) :
    encodeURIComponent (c :: t) = (encodeURIComponent t).map fun r => c :: r := by
  cases t with
  | nil => rw [encodeURIComponent_nil, encodeURIComponent]; simp [h]
  | cons d rest => rw [encodeURIComponent]; simp [h]

theorem encodeURIComponent_plain (c : Nat) (t : JSString) (h : isUriUnreserved c = false)
    (hh : isHighSurrogate c = false) (hl : isLowSurrogate c = false) :
    encodeURIComponent (c :: t) = (encodeURIComponent t).map fun r => percentEncode c ++ r := by
  cases t with
  | nil => rw [encodeURIComponent_nil, encodeURIComponent]; simp [h, hh, hl]
  | cons d rest => rw [encodeURIComponent]; simp [h, hh, hl]

theorem encodeURIComponent_pair (c d : Nat) (t : JSString) (h : isUriUnreserved c = false)
    (hh : isHighSurrogate c = true) (hl : isLowSurrogate d = true) :
    encodeURIComponent (c :: d :: t) = (encodeURIComponent t).map fun r =>
      percentEncode ((c - 55296) * 1024 + (d - 56320) + 65536) ++ r := by
  rw [encodeURIComponent]; simp [h, hh, hl]

theorem surrogate_not_unreserved (c : Nat) (h : 55296 ≤ c) : isUriUnreserved c = false := by
  simp only [isUriUnreserved, Bool.or_eq_false_iff, Bool.and_eq_false_iff,
    decide_eq_false_iff_not]
  omega

theorem encodable_append (a : JSString) : ∀ (b : JSString), Encodable a → Encodable b →
    Encodable (a ++ b) := by
  induction a using encodeURIComponent.induct with
  | case1 => intro b _ hb; simpa using hb
  | case2 c hu =>
    intro b _ hb
    obtain ⟨e, he⟩ := hb
    exact ⟨c :: e, by simp [encodeURIComponent_unreserved c b hu, he]⟩
  | case3 c hu hs =>
    intro b ha _
    obtain ⟨e, he⟩ := ha
    rw [encodeURIComponent] at he
    simp [hu, hs] at he
  | case4 c hu hs =>
    intro b _ hb
    obtain ⟨e, he⟩ := hb
    simp only [Bool.or_eq_true, not_or, Bool.not_eq_true] at hs
    exact ⟨percentEncode c ++ e, by
      simp [encodeURIComponent_plain c b (by simpa using hu) hs.1 hs.2, he]⟩
  | case5 c d rest hu ih =>
    intro b ha hb
    obtain ⟨e, he⟩ := ha
    rw [encodeURIComponent_unreserved c _ hu] at he
    cases hr : encodeURIComponent (d :: rest) with
    | none => simp [hr] at he
    | some r =>
      obtain ⟨e2, he2⟩ := ih b ⟨r, hr⟩ hb
      exact ⟨c :: e2, by
        rw [List.cons_append, encodeURIComponent_unreserved c _ hu, he2]; rfl⟩
  | case6 c d rest hu hh hl ih =>
    intro b ha hb
    obtain ⟨e, he⟩ := ha
    rw [encodeURIComponent_pair c d rest (by simpa using hu) hh hl] at he
    cases hr : encodeURIComponent rest with
    | none => simp [hr] at he
    | some r =>
      obtain ⟨e2, he2⟩ := ih b ⟨r, hr⟩ hb
      exact ⟨_, by
        rw [List.cons_append, List.cons_append,
          encodeURIComponent_pair c d _ (by simpa using hu) hh hl, he2]; rfl⟩
  | case7 c d rest hu hh hl =>
    intro b ha _
    obtain ⟨e, he⟩ := ha
    rw [encodeURIComponent] at he
    simp [hu, hh, hl] at he
  | case8 c d rest hu hh hl =>
    intro b ha _
    obtain ⟨e, he⟩ := ha
    rw [encodeURIComponent] at he
    simp [hu, hh, hl] at he
  | case9 c d rest hu hh hl ih =>
    intro b ha hb
    obtain ⟨e, he⟩ := ha
    rw [encodeURIComponent_plain c _ (by simpa using hu) (by simpa using hh) (by simpa using hl)]
      at he
    cases hr : encodeURIComponent (d :: rest) with
    | none => simp [hr] at he
    | some r =>
      obtain ⟨e2, he2⟩ := ih b ⟨r, hr⟩ hb
      exact ⟨_, by
        rw [List.cons_append,
          encodeURIComponent_plain c _ (by simpa using hu) (by simpa using hh) (by simpa using hl),
          he2]; rfl⟩

theorem noSurrogate_of_lt (s : JSString) (h : ∀ c ∈ s, c < 55296) : NoSurrogate s := by
  intro c hc
  have := h c hc
  simp only [isHighSurrogate, isLowSurrogate, Bool.and_eq_false_iff, decide_eq_false_iff_not]
  omega

theorem noSurrogate_append (a b : JSString) (ha : NoSurrogate a) (hb : NoSurrogate b) :
    NoSurrogate (a ++ b) := by
  intro c hc
  rcases List.mem_append.mp hc with h | h
  · exact ha c h
  · exact hb c h

theorem encodable_cons (c : Nat) (t : JSString) (hh : isHighSurrogate c = false)
    (hl : isLowSurrogate c = false) (ht : Encodable t) : Encodable (c :: t) := by
  obtain ⟨e, he⟩ := ht
  by_cases hu : isUriUnreserved c = true
  · exact ⟨c :: e, by rw [encodeURIComponent_unreserved c t hu, he]; rfl⟩
  · exact ⟨percentEncode c ++ e, by
      rw [encodeURIComponent_plain c t (by simpa using hu) hh hl, he]; rfl⟩

theorem encodable_nil : Encodable [] := ⟨[], encodeURIComponent_nil⟩

theorem encodable_of_noSurrogate (s : JSString) (h : NoSurrogate s) : Encodable s := by
  induction s with
  | nil => exact encodable_nil
  | cons c t ih =>
    have hc := h c (List.mem_cons_self c t)
    exact encodable_cons c t hc.1 hc.2 (ih fun x hx => h x (List.mem_cons_of_mem c hx))

theorem encodable_plain_append (a b : JSString) (ha : NoSurrogate a) (hb : Encodable b) :
    Encodable (a ++ b) :=
  encodable_append a b (encodable_of_noSurrogate a ha) hb

theorem hexDigitLower_lt (d : Nat) (h : d < 16) : hexDigitLower d < 55296 := by
  unfold hexDigitLower; split_ifs <;> omega

theorem noSurrogate_quoteUnit (c : Nat) : NoSurrogate (quoteUnit c) := by
  unfold quoteUnit
  split_ifs with h8 h9 h10 h12 h13 h34 h92 hesc
  any_goals (apply noSurrogate_of_lt; intro x hx; simp at hx; omega)
  · apply noSurrogate_of_lt
    intro x hx
    simp only [unicodeEscape, List.mem_cons, List.mem_singleton, List.not_mem_nil, or_false] at hx
    rcases hx with h | h | h | h | h | h
    · omega
    · omega
    all_goals (subst h; exact hexDigitLower_lt _ (Nat.mod_lt _ (by norm_num)))
  · intro x hx
    simp only [List.mem_singleton] at hx
    subst hx
    simp only [not_or, Bool.not_eq_true] at hesc
    exact hesc.2

theorem encodable_quoteChars (s : JSString) : ∀ (t : JSString), Encodable t →
    Encodable (quoteChars s ++ t) := by
  induction s using quoteChars.induct with
  | case1 => intro t ht; simpa [quoteChars] using ht
  | case2 c =>
    intro t ht
    rw [quoteChars]
    exact encodable_plain_append _ _ (noSurrogate_quoteUnit c) ht
  | case3 c d rest hpair ih =>
    intro t ht
    obtain ⟨e, he⟩ := ih t ht
    simp only [Bool.and_eq_true] at hpair
    rw [quoteChars, if_pos (by simp [hpair])]
    exact ⟨_, by
      rw [List.cons_append, List.cons_append,
        encodeURIComponent_pair c d _ (surrogate_not_unreserved c (by
          have := hpair.1
          simp only [isHighSurrogate, Bool.and_eq_true, decide_eq_true_eq] at this
          omega)) hpair.1 hpair.2, he]; rfl⟩
  | case4 c d rest hpair ih =>
    intro t ht
    rw [quoteChars, if_neg hpair, List.append_assoc]
    exact encodable_plain_append _ _ (noSurrogate_quoteUnit c) (ih t ht)

theorem encodable_quoteJSONString (s t : JSString) (ht : Encodable t) :
    Encodable (quoteJSONString s ++ t) := by
  have h := encodable_quoteChars s (34 :: t) (encodable_cons 34 t (by decide) (by decide) ht)
  simpa [quoteJSONString] using encodable_cons 34 _ (by decide) (by decide) h

theorem noSurrogate_intToString (n : Int) : NoSurrogate (intToString n) := by
  apply noSurrogate_of_lt
  cases n with
  | ofNat k =>
    intro c hc
    have := natToString_digits k c hc
    omega
  | negSucc k =>
    intro c hc
    simp only [intToString, List.mem_cons] at hc
    rcases hc with h | h
    · omega
    · have := natToString_digits (k + 1) c h
      omega

theorem noSurrogate_sep (s : JSString) (h : NoSurrogate s) : NoSurrogate ([44, 10] ++ s) :=
  noSurrogate_append _ _ (noSurrogate_of_lt _ (by intro c hc; simp at hc; omega)) h

theorem noSurrogate_comma : NoSurrogate [44] :=
  noSurrogate_of_lt _ (by intro c hc; simp at hc; omega)

theorem encodable_lit (a t : JSString) (ha : ∀ c ∈ a, c < 55296) (ht : Encodable t) :
    Encodable (a ++ t) :=
  encodable_plain_append a t (noSurrogate_of_lt a ha) ht

mutual
theorem encodable_serializeValue : ∀ (v : Json) (gap indent t : JSString),
    NoSurrogate gap → NoSurrogate indent → Encodable t →
    Encodable (serializeValue gap indent v ++ t)
  | Json.null, gap, indent, t, _, _, ht => by
    rw [serializeValue]; exact encodable_lit _ t (by intro c hc; simp at hc; omega) ht
  | Json.bool true, gap, indent, t, _, _, ht => by
    rw [serializeValue]; exact encodable_lit _ t (by intro c hc; simp at hc; omega) ht
  | Json.bool false, gap, indent, t, _, _, ht => by
    rw [serializeValue]; exact encodable_lit _ t (by intro c hc; simp at hc; omega) ht
  | Json.num n, gap, indent, t, _, _, ht => by
    rw [serializeValue]; exact encodable_plain_append _ t (noSurrogate_intToString n) ht
  | Json.str s, gap, indent, t, _, _, ht => by
    rw [serializeValue]; exact encodable_quoteJSONString s t ht
  | Json.arr JsonList.nil, gap, indent, t, _, _, ht => by
    rw [serializeValue]; exact encodable_lit _ t (by intro c hc; simp at hc; omega) ht
  | Json.arr (JsonList.cons x xs), gap, indent, t, hg, hi, ht => by
    have hig := noSurrogate_append indent gap hi hg
    rw [serializeValue]
    split_ifs with h
    · simp only [List.append_assoc, List.cons_append, List.nil_append, List.singleton_append]
      refine encodable_cons 91 _ (by decide) (by decide) ?_
      refine encodable_serializeValue x gap (indent ++ gap) _ hg hig ?_
      refine encodable_serializeItems xs gap (indent ++ gap) [44] _ hg hig noSurrogate_comma ?_
      exact encodable_cons 93 _ (by decide) (by decide) ht
    · simp only [List.append_assoc, List.cons_append, List.nil_append, List.singleton_append]
      refine encodable_cons 91 _ (by decide) (by decide) ?_
      refine encodable_cons 10 _ (by decide) (by decide) ?_
      refine encodable_plain_append _ _ hi ?_
      refine encodable_plain_append _ _ hg ?_
      refine encodable_serializeValue x gap (indent ++ gap) _ hg hig ?_
      refine encodable_serializeItems xs gap (indent ++ gap) _ _ hg hig
        (noSurrogate_sep _ hig) ?_
      refine encodable_cons 10 _ (by decide) (by decide) ?_
      refine encodable_plain_append _ _ hi ?_
      exact encodable_cons 93 _ (by decide) (by decide) ht
  | Json.obj JsonMembers.nil, gap, indent, t, _, _, ht => by
    rw [serializeValue]; exact encodable_lit _ t (by intro c hc; simp at hc; omega) ht
  | Json.obj (JsonMembers.cons k v ms), gap, indent, t, hg, hi, ht => by
    have hig := noSurrogate_append indent gap hi hg
    rw [serializeValue]
    split_ifs with h
    · simp only [List.append_assoc, List.cons_append, List.nil_append, List.singleton_append]
      refine encodable_cons 123 _ (by decide) (by decide) ?_
      refine encodable_quoteJSONString k _ ?_
      refine encodable_cons 58 _ (by decide) (by decide) ?_
      refine encodable_serializeValue v gap (indent ++ gap) _ hg hig ?_
      refine encodable_serializeMembers ms gap (indent ++ gap) [44] _ hg hig noSurrogate_comma ?_
      exact encodable_cons 125 _ (by decide) (by decide) ht
    · simp only [List.append_assoc, List.cons_append, List.nil_append, List.singleton_append]
      refine encodable_cons 123 _ (by decide) (by decide) ?_
      refine encodable_cons 10 _ (by decide) (by decide) ?_
      refine encodable_plain_append _ _ hi ?_
      refine encodable_plain_append _ _ hg ?_
      refine encodable_quoteJSONString k _ ?_
      refine encodable_cons 58 _ (by decide) (by decide) ?_
      refine encodable_cons 32 _ (by decide) (by decide) ?_
      refine encodable_serializeValue v gap (indent ++ gap) _ hg hig ?_
      refine encodable_serializeMembers ms gap (indent ++ gap) _ _ hg hig
        (noSurrogate_sep _ hig) ?_
      refine encodable_cons 10 _ (by decide) (by decide) ?_
      refine encodable_plain_append _ _ hi ?_
      exact encodable_cons 125 _ (by decide) (by decide) ht
theorem encodable_serializeItems : ∀ (xs : JsonList) (gap indent sep t : JSString),
    NoSurrogate gap → NoSurrogate indent → NoSurrogate sep → Encodable t →
    Encodable (serializeItems gap indent sep xs ++ t)
  | JsonList.nil, gap, indent, sep, t, _, _, _, ht => by
    rw [serializeItems]; exact ht
  | JsonList.cons x xs, gap, indent, sep, t, hg, hi, hs, ht => by
    rw [serializeItems]
    simp only [List.append_assoc]
    refine encodable_plain_append _ _ hs ?_
    refine encodable_serializeValue x gap indent _ hg hi ?_
    exact encodable_serializeItems xs gap indent sep t hg hi hs ht
theorem encodable_serializeMembers : ∀ (ms : JsonMembers) (gap indent sep t : JSString),
    NoSurrogate gap → NoSurrogate indent → NoSurrogate sep → Encodable t →
    Encodable (serializeMembers gap indent sep ms ++ t)
  | JsonMembers.nil, gap, indent, sep, t, _, _, _, ht => by
    rw [serializeMembers]; exact ht
  | JsonMembers.cons k v ms, gap, indent, sep, t, hg, hi, hs, ht => by
    rw [serializeMembers]
    simp only [List.append_assoc]
    refine encodable_plain_append _ _ hs ?_
    refine encodable_quoteJSONString k _ ?_
    refine encodable_plain_append _ _
      (noSurrogate_of_lt _ (by intro c hc; split_ifs at hc <;> simp at hc <;> omega)) ?_
    refine encodable_serializeValue v gap indent _ hg hi ?_
    exact encodable_serializeMembers ms gap indent sep t hg hi hs ht
end

theorem isConfigured_value (m : GitHubManager) :
    m.isConfigured
      = Json.str (if m.token = [] then [] else if m.repoOwner = [] then [] else m.repoName) := by
  unfold GitHubManager.isConfigured jsAnd
  by_cases h1 : m.token = [] <;> by_cases h2 : m.repoOwner = [] <;> simp [isTruthy, h1, h2]

theorem isConfigured_truthy (m : GitHubManager) :
    isTruthy (some m.isConfigured) = true
      ↔ m.token ≠ [] ∧ m.repoOwner ≠ [] ∧ m.repoName ≠ [] := by
  rw [isConfigured_value]
  by_cases h1 : m.token = [] <;> by_cases h2 : m.repoOwner = [] <;> simp [isTruthy, h1, h2]

set_option maxRecDepth 100000

/-- C3 (the code departs from the claim): `saveConfig` called with an empty
branch leaves `repoBranch` empty, so the raw URL has an empty branch segment,
while the constructor run on the store it has just written yields `main`. -/
theorem saveConfig_empty_branch_stays_empty :
    (blankManager.saveConfig emptyStorage (lit "t") (lit "o") (lit "r") []).2.1.repoBranch = []
      ∧ (blankManager.saveConfig emptyStorage (lit "t") (lit "o") (lit "r") []).2.1.getRawUrl
        = lit "https://raw.githubusercontent.com/o/r//data/articles.json"
      ∧ (blankManager.saveConfig emptyStorage (lit "t") (lit "o") (lit "r")
          []).2.1.contentsRequest.url
        = lit "https://api.github.com/repos/o/r/contents/data/articles.json?ref="
      ∧ (GitHubManager.constructor
          (blankManager.saveConfig emptyStorage (lit "t") (lit "o") (lit "r") []).2.2).repoBranch
        = lit "main" := by
  refine ⟨rfl, ?_, ?_, ?_⟩ <;> decide

/-- C5 (counterexample): `isConfigured()` returns a string, not a boolean: the
repository name when everything is set, the empty string when nothing is; and
`saveConfig` returns that string. -/
theorem isConfigured_returns_string :
    sampleManager.isConfigured = Json.str (lit "r")
      ∧ sampleManager.isConfigured ≠ Json.bool true
      ∧ blankManager.isConfigured = Json.str []
      ∧ blankManager.isConfigured ≠ Json.bool false
      ∧ (blankManager.saveConfig emptyStorage (lit "t") (lit "o") (lit "r") (lit "main")).1
        ≠ Json.bool true := by
  have h1 : sampleManager.isConfigured = Json.str (lit "r") := rfl
  have h2 : blankManager.isConfigured = Json.str [] := rfl
  have h3 : (blankManager.saveConfig emptyStorage (lit "t") (lit "o") (lit "r") (lit "main")).1
      = Json.str (lit "r") := rfl
  rw [h1, h2, h3]
  refine ⟨rfl, ?_, rfl, ?_, ?_⟩ <;> exact fun h => Json.noConfusion h

/-- C5 (amended): `isConfigured()` is a function of the three fields only; its
value is truthy exactly when token, owner and repository name are all
non-empty, it is then the repository name and otherwise the empty string; and
`saveConfig` returns `isConfigured()` of the configuration it has just stored. -/
theorem isConfigured_truthy_iff (m : GitHubManager) (ls : LocalStorage)
    (token owner name branch : JSString) :
    (isTruthy (some m.isConfigured) = true
        ↔ m.token ≠ [] ∧ m.repoOwner ≠ [] ∧ m.repoName ≠ [])
      ∧ m.isConfigured
        = Json.str (if m.token = [] then [] else if m.repoOwner = [] then [] else m.repoName)
      ∧ (m.saveConfig ls token owner name branch).1
        = (m.saveConfig ls token owner name branch).2.1.isConfigured
      ∧ (m.saveConfig ls token owner name branch).2.1.token = token
      ∧ (m.saveConfig ls token owner name branch).2.1.repoOwner = owner
      ∧ (m.saveConfig ls token owner name branch).2.1.repoName = name
      ∧ (isTruthy (some (m.saveConfig ls token owner name branch).1) = true
        ↔ token ≠ [] ∧ owner ≠ [] ∧ name ≠ []) := by
  refine ⟨isConfigured_truthy m, isConfigured_value m, rfl, rfl, rfl, rfl, ?_⟩
  exact isConfigured_truthy (m.saveConfig ls token owner name branch).2.1

/-- C9: for a configured client, a read answered with HTTP 404 makes
`fetchArticles()` resolve with the empty sequence, whatever the cache holds. -/
theorem fetchArticles_404_empty (env : Env) (m : GitHubManager) (ls : LocalStorage)
    (body : JSString) (hcfg : isTruthy (some m.isConfigured) = true)
    (h404 : env.fetch m.contentsRequest = FetchResult.response 404 body) :
    m.fetchArticles env ls = (Except.ok (Json.arr JsonList.nil), [m.contentsRequest]) := by
  simp only [GitHubManager.fetchArticles, hcfg, Bool.not_true, Bool.false_eq_true, if_false,
    h404, if_true]

/-- Witness for C9: the sample client against a repository without the file,
with a corrupt cache. -/
theorem fetchArticles_404_empty_witness :
    isTruthy (some sampleManager.isConfigured) = true
      ∧ sampleManager.fetchArticles createEnv corruptStorage
        = (Except.ok (Json.arr JsonList.nil), [sampleManager.contentsRequest]) :=
  ⟨rfl, fetchArticles_404_empty createEnv sampleManager corruptStorage _ rfl rfl⟩

/-- C10 (the code departs from the claim): the document `["中"]` is encoded by
`saveArticles` as `WwogICLkuK0iCl0=`; `fetchArticles`, served that content,
returns `["ä¸­"]` (the three UTF-8 octets read as three characters), which
is not the document. -/
theorem chinese_document_not_restored :
    encodeContent offlineEnv chineseDoc = Except.ok (lit "WwogICLkuK0iCl0=")
      ∧ (sampleManager.fetchArticles (serveFile (lit "WwogICLkuK0iCl0=")) emptyStorage).1
        = Except.ok (Json.arr (JsonList.cons (Json.str [228, 184, 173]) JsonList.nil))
      ∧ chineseDoc = Json.arr (JsonList.cons (Json.str [20013]) JsonList.nil)
      ∧ (sampleManager.fetchArticles (serveFile (lit "WwogICLkuK0iCl0=")) emptyStorage).1
        ≠ Except.ok chineseDoc := by
  have h : (sampleManager.fetchArticles (serveFile (lit "WwogICLkuK0iCl0=")) emptyStorage).1
      = Except.ok (Json.arr (JsonList.cons (Json.str [228, 184, 173]) JsonList.nil)) := rfl
  have hd : chineseDoc = Json.arr (JsonList.cons (Json.str [20013]) JsonList.nil) := rfl
  refine ⟨rfl, h, hd, ?_⟩
  rw [h, hd]
  intro hne
  simp at hne

end GitHubApi
